import Mathlib

/-!
Shallow embedding of the Rust crate array-plus-extra.

The crate defines one type, ArrayPlusExtra<T, N, EXTRA>: a #[repr(C)] struct
holding two fixed-size arrays, data: [T; N] and extra: [T; EXTRA], laid out
back to back, together with flat-view accessors (as_slice / as_mut_slice),
fixed-array conversions (as_array / into_array, guarded by a compile-time
size assertion), forwarded slice equality, a derived Debug formatter, a
defmt Format forwarder, and a serde adapter (serialize as the flat slice;
deserialize via an element-by-element visitor).

Rust fixed arrays [T; K] are embedded as Lean lists carrying a length proof;
the contiguity invariant of the #[repr(C)] layout is embedded by letting the
flat view be list append, so that as_slice, as_array and into_array all
denote the same data ++ extra sequence, exactly as the transmute and the
from_raw_parts pointer construction do over the contiguous memory.
-/

set_option maxHeartbeats 1000000

/-- Embedding of the struct ArrayPlusExtra<T, N, EXTRA>: field data of exactly
N elements and field extra of exactly EXTRA elements. -/
structure ArrayPlusExtra (T : Type) (N EXTRA : Nat) where
  data : List T
  extra : List T
  data_len : data.length = N
  extra_len : extra.length = EXTRA

/-- Embedding of ArrayPlusExtra::new(value): fills data with N copies and
extra with EXTRA copies of value (the [value; N] / [value; EXTRA] repeats). -/
def ArrayPlusExtra.new {T : Type} {N EXTRA : Nat} (value : T) : ArrayPlusExtra T N EXTRA :=
  ⟨List.replicate N value, List.replicate EXTRA value,
    List.length_replicate N value, List.length_replicate EXTRA value⟩

/-- Embedding of ArrayPlusExtra::as_slice(): the read-only flat view over the
contiguous memory, i.e. the N elements of data followed by the EXTRA elements
of extra (from_raw_parts over the #[repr(C)] layout). -/
def ArrayPlusExtra.as_slice {T : Type} {N EXTRA : Nat} (a : ArrayPlusExtra T N EXTRA) : List T :=
  a.data ++ a.extra

/-- Embedding of a single write through as_mut_slice(): storing x at flat
index i of the contiguous memory lands in data when i < N and in extra at
offset i - N otherwise (writes past the end of the slice do not exist in
Rust; here they leave the value unchanged since List.set is the identity out
of range). -/
def ArrayPlusExtra.set {T : Type} {N EXTRA : Nat} (a : ArrayPlusExtra T N EXTRA) (i : Nat)
    (x : T) : ArrayPlusExtra T N EXTRA :=
  if i < N then
    { a with data := a.data.set i x,
             data_len := by rw [List.length_set]; exact a.data_len }
  else
    { a with extra := a.extra.set (i - N) x,
             extra_len := by rw [List.length_set]; exact a.extra_len }

/-- Embedding of ArrayPlusExtra::as_array::<M>(): the compile-time
const-assert M == N + EXTRA is embedded as a size check; when it holds the
transmute yields the flat view of all N + EXTRA elements. -/
def ArrayPlusExtra.as_array {T : Type} {N EXTRA : Nat} (a : ArrayPlusExtra T N EXTRA)
    (M : Nat) : Option (List T) :=
  if M = N + EXTRA then some a.as_slice else none

/-- Embedding of ArrayPlusExtra::into_array::<M>(): same compile-time size
check; the ptr::read of the whole struct as [T; M] yields the flat sequence
of all elements, ownership moving out exactly once. -/
def ArrayPlusExtra.into_array {T : Type} {N EXTRA : Nat} (a : ArrayPlusExtra T N EXTRA)
    (M : Nat) : Option (List T) :=
  if M = N + EXTRA then some a.as_slice else none

/-- Rewrapping a flat array of N + EXTRA elements into the struct: the first
N elements become data and the remaining EXTRA become extra. -/
def rewrap {T : Type} {N EXTRA : Nat} (l : List T) (h : l.length = N + EXTRA) :
    ArrayPlusExtra T N EXTRA :=
  ⟨l.take N, l.drop N,
    by rw [List.length_take, h]; exact Nat.min_eq_left (Nat.le_add_right N EXTRA),
    by rw [List.length_drop, h]; exact Nat.add_sub_cancel_left N EXTRA⟩

/-- Embedding of the slice PartialEq used by self[..] == other[..]: equal
length and element-wise equality under the element comparison. -/
def sliceBEq {T : Type} (eqT : T → T → Bool) : List T → List T → Bool
  | [], [] => true
  | x :: xs, y :: ys => eqT x y && sliceBEq eqT xs ys
  | _ :: _, [] => false
  | [], _ :: _ => false

/-- Embedding of the forwarded PartialEq::eq for ArrayPlusExtra: compares the
two flat views element-wise (self[..] == other[..] through Deref). -/
def ArrayPlusExtra.eq {T : Type} [DecidableEq T] {N EXTRA : Nat}
    (a b : ArrayPlusExtra T N EXTRA) : Bool :=
  sliceBEq (fun x y => decide (x = y)) a.as_slice b.as_slice

/-- Rendering of a plain array or slice under Rust Debug-style formatting,
parameterized by the element renderer: bracketed, comma-separated. -/
def renderList {T : Type} (render : T → String) (l : List T) : String :=
  "[" ++ String.intercalate ", " (l.map render) ++ "]"

/-- Embedding of the derived Debug rendering of the struct (from
derive(Debug)): the struct name followed by the two named fields, each
rendered as a fixed array. -/
def debugRender {T : Type} {N EXTRA : Nat} (render : T → String)
    (a : ArrayPlusExtra T N EXTRA) : String :=
  "ArrayPlusExtra \x7b data: " ++ renderList render a.data ++
    ", extra: " ++ renderList render a.extra ++ " \x7d"

/-- Embedding of the defmt Format forwarder: formats self.as_slice(), i.e.
renders exactly the flat view as a sequence. -/
def defmtRender {T : Type} {N EXTRA : Nat} (render : T → String)
    (a : ArrayPlusExtra T N EXTRA) : String :=
  renderList render a.as_slice

/-- Embedding of serde Serialize for ArrayPlusExtra: serializes
self.as_slice(), i.e. the wire form is the flat sequence of N + EXTRA
elements in order. -/
def serialize {T : Type} {N EXTRA : Nat} (a : ArrayPlusExtra T N EXTRA) : List T :=
  a.as_slice

/-- Embedding of serde deserialization errors reachable from this crate:
Error::invalid_length(i, &self) records the position i at which the input
sequence ran out and the visitor expecting() string. -/
inductive DeError where
  | invalidLength (got : Nat) (expected : String)
deriving DecidableEq

/-- Embedding of ArrayVisitor::expecting: the message naming the expected
total element count. -/
def expectingMsg (N EXTRA : Nat) : String :=
  "an array of " ++ Nat.repr (N + EXTRA) ++ " elements"

/-- Embedding of the element-consumption loop of visit_seq: take count
elements off the front of the input sequence (seq.next_element repeated),
with pos the running enumerate index; when the input is exhausted early the
loop fails with invalid_length at the current index. Returns the consumed
elements and the unconsumed remainder of the input. -/
def takeExact {T : Type} (expected : String) :
    Nat → List T → Nat → Except DeError (List T × List T)
  | 0, input, _ => .ok ([], input)
  | _ + 1, [], pos => .error (.invalidLength pos expected)
  | c + 1, x :: rest, pos =>
    match takeExact expected c rest (pos + 1) with
    | .ok (l, rem) => .ok (x :: l, rem)
    | .error e => .error e

theorem takeExact_ok {T : Type} {expected : String} :
    ∀ {c : Nat} {input : List T} {pos : Nat} {l rem : List T},
      takeExact expected c input pos = .ok (l, rem) → l.length = c ∧ input = l ++ rem := by
  intro c
  induction c with
  | zero =>
    intro input pos l rem h
    simp only [takeExact] at h
    cases h
    exact ⟨rfl, rfl⟩
  | succ c ih =>
    intro input pos l rem h
    cases input with
    | nil =>
      simp only [takeExact] at h
      exact Except.noConfusion h
    | cons x rest =>
      simp only [takeExact] at h
      cases he : takeExact expected c rest (pos + 1) with
      | error e => rw [he] at h; simp at h
      | ok p =>
        rw [he] at h
        cases p with
        | mk l0 rem0 =>
          simp only at h
          cases h
          obtain ⟨hlen, happ⟩ := ih he
          exact ⟨by simp [hlen], by simp [happ]⟩

theorem takeExact_sufficient {T : Type} {expected : String} :
    ∀ {c : Nat} {input : List T} {pos : Nat}, c ≤ input.length →
      takeExact expected c input pos = .ok (input.take c, input.drop c) := by
  intro c
  induction c with
  | zero => intro input pos _; simp [takeExact]
  | succ c ih =>
    intro input pos h
    cases input with
    | nil => simp at h
    | cons x rest =>
      simp only [List.length_cons, Nat.succ_le_succ_iff] at h
      simp [takeExact, ih h]

theorem takeExact_short {T : Type} {expected : String} :
    ∀ {c : Nat} {input : List T} {pos : Nat}, input.length < c →
      takeExact expected c input pos = .error (.invalidLength (pos + input.length) expected) := by
  intro c
  induction c with
  | zero => intro input pos h; simp at h
  | succ c ih =>
    intro input pos h
    cases input with
    | nil => simp [takeExact]
    | cons x rest =>
      simp only [List.length_cons, Nat.succ_lt_succ_iff] at h
      simp [takeExact, ih h, Nat.add_assoc, Nat.add_comm 1 rest.length]

/-- Embedding of ArrayVisitor::visit_seq: fills the N data slots then the
EXTRA extra slots from the input sequence in order, the enumerate index
running 0, 1, ... across the chained iterators; an exhausted input fails
with invalid_length at the current index, and trailing input elements are
simply left unconsumed. -/
def visit_seq {T : Type} {N EXTRA : Nat} (input : List T) :
    Except DeError (ArrayPlusExtra T N EXTRA) :=
  match h1 : takeExact (expectingMsg N EXTRA) N input 0 with
  | .error e => .error e
  | .ok (d, rem) =>
    match h2 : takeExact (expectingMsg N EXTRA) EXTRA rem N with
    | .error e => .error e
    | .ok (ex, _) => .ok ⟨d, ex, (takeExact_ok h1).1, (takeExact_ok h2).1⟩

theorem ArrayPlusExtra.ext_flat {T : Type} {N EXTRA : Nat} {a b : ArrayPlusExtra T N EXTRA}
    (hd : a.data = b.data) (he : a.extra = b.extra) : a = b := by
  cases a
  cases b
  cases hd
  cases he
  rfl

theorem as_slice_length {T : Type} {N EXTRA : Nat} (a : ArrayPlusExtra T N EXTRA) :
    a.as_slice.length = N + EXTRA := by
  simp [ArrayPlusExtra.as_slice, a.data_len, a.extra_len]

theorem as_slice_set {T : Type} {N EXTRA : Nat} (a : ArrayPlusExtra T N EXTRA) (i : Nat)
    (x : T) : (a.set i x).as_slice = a.as_slice.set i x := by
  by_cases h : i < N
  · simp only [ArrayPlusExtra.set, if_pos h, ArrayPlusExtra.as_slice, List.set_append,
      a.data_len, if_pos h]
  · simp only [ArrayPlusExtra.set, if_neg h, ArrayPlusExtra.as_slice, List.set_append,
      a.data_len, if_neg h]

theorem sliceBEq_decide_iff {T : Type} [DecidableEq T] :
    ∀ xs ys : List T, sliceBEq (fun x y => decide (x = y)) xs ys = true ↔ xs = ys := by
  intro xs
  induction xs with
  | nil =>
    intro ys
    cases ys <;> simp [sliceBEq]
  | cons x xs ih =>
    intro ys
    cases ys with
    | nil => simp [sliceBEq]
    | cons y ys => simp [sliceBEq, ih]

theorem eq_iff_as_slice {T : Type} [DecidableEq T] {N EXTRA : Nat}
    (a b : ArrayPlusExtra T N EXTRA) : a.eq b = true ↔ a.as_slice = b.as_slice := by
  exact sliceBEq_decide_iff a.as_slice b.as_slice

theorem getElem?_eq_none_of_ge {T : Type} {l : List T} {i : Nat} (h : l.length ≤ i) :
    l[i]? = none := by
  simp [List.getElem?_eq_none_iff]
  omega

theorem visit_seq_ok_of_le {T : Type} {N EXTRA : Nat} (input : List T)
    (h : N + EXTRA ≤ input.length) :
    visit_seq input =
      .ok (⟨input.take N, (input.drop N).take EXTRA,
        by rw [List.length_take]; exact Nat.min_eq_left (by omega),
        by rw [List.length_take, List.length_drop]; exact Nat.min_eq_left (by omega)⟩ :
        ArrayPlusExtra T N EXTRA) := by
  have h1 : takeExact (expectingMsg N EXTRA) N input 0 = .ok (input.take N, input.drop N) :=
    takeExact_sufficient (by omega)
  have hlen : EXTRA ≤ (input.drop N).length := by rw [List.length_drop]; omega
  have h2 : takeExact (expectingMsg N EXTRA) EXTRA (input.drop N) N =
      .ok ((input.drop N).take EXTRA, (input.drop N).drop EXTRA) :=
    takeExact_sufficient hlen
  unfold visit_seq
  split
  · rename_i e heq
    rw [h1] at heq
    exact Except.noConfusion heq
  · rename_i d rem heq
    rw [h1] at heq
    injection heq with heq'
    injection heq' with hd hrem
    subst hd
    subst hrem
    split
    · rename_i e heq2
      rw [h2] at heq2
      exact Except.noConfusion heq2
    · rename_i ex rem2 heq2
      rw [h2] at heq2
      injection heq2 with heq2'
      injection heq2' with hex hrem2
      subst hex
      subst hrem2
      rfl

theorem visit_seq_short_eq {T : Type} {N EXTRA : Nat} (input : List T)
    (h : input.length < N + EXTRA) :
    visit_seq input =
      (.error (.invalidLength input.length (expectingMsg N EXTRA)) :
        Except DeError (ArrayPlusExtra T N EXTRA)) := by
  by_cases hN : input.length < N
  · have h1 : takeExact (expectingMsg N EXTRA) N input 0 =
        .error (.invalidLength (0 + input.length) (expectingMsg N EXTRA)) :=
      takeExact_short hN
    rw [Nat.zero_add] at h1
    unfold visit_seq
    split
    · rename_i e heq
      rw [h1] at heq
      injection heq with heq'
      rw [heq']
    · rename_i d rem heq
      rw [h1] at heq
      exact Except.noConfusion heq
  · push_neg at hN
    have h1 : takeExact (expectingMsg N EXTRA) N input 0 = .ok (input.take N, input.drop N) :=
      takeExact_sufficient hN
    have hlen : (input.drop N).length < EXTRA := by rw [List.length_drop]; omega
    have h2 : takeExact (expectingMsg N EXTRA) EXTRA (input.drop N) N =
        .error (.invalidLength (N + (input.drop N).length) (expectingMsg N EXTRA)) :=
      takeExact_short hlen
    have hpos : N + (input.drop N).length = input.length := by rw [List.length_drop]; omega
    rw [hpos] at h2
    unfold visit_seq
    split
    · rename_i e heq
      rw [h1] at heq
      exact Except.noConfusion heq
    · rename_i d rem heq
      rw [h1] at heq
      injection heq with heq'
      injection heq' with hd hrem
      subst hd
      subst hrem
      split
      · rename_i e heq2
        rw [h2] at heq2
        injection heq2 with heq2'
        rw [heq2']
      · rename_i ex rem2 heq2
        rw [h2] at heq2
        exact Except.noConfusion heq2

/-- C1: for every instance of ArrayPlusExtra, as_slice() is a view of exactly
N + EXTRA elements in which element i equals data[i] for i < N and equals
extra[i - N] for N ≤ i < N + EXTRA: first all of data in order, then all of
extra in order. -/
theorem C1_as_slice_layout {T : Type} {N EXTRA : Nat} (a : ArrayPlusExtra T N EXTRA) :
    a.as_slice.length = N + EXTRA ∧
    (∀ i, i < N → a.as_slice[i]? = a.data[i]?) ∧
    (∀ i, N ≤ i → i < N + EXTRA → a.as_slice[i]? = a.extra[i - N]?) := by
  refine ⟨as_slice_length a, ?_, ?_⟩
  · intro i hi
    simp [ArrayPlusExtra.as_slice, List.getElem?_append, a.data_len, hi]
  · intro i hi _
    rw [ArrayPlusExtra.as_slice,
      List.getElem?_append_right (by rw [a.data_len]; exact hi), a.data_len]

theorem C1_witness :
    (⟨[1, 2], [3], rfl, rfl⟩ : ArrayPlusExtra Nat 2 1).as_slice.length = 2 + 1 ∧
    (⟨[1, 2], [3], rfl, rfl⟩ : ArrayPlusExtra Nat 2 1).as_slice[0]? =
      (⟨[1, 2], [3], rfl, rfl⟩ : ArrayPlusExtra Nat 2 1).data[0]? ∧
    (⟨[1, 2], [3], rfl, rfl⟩ : ArrayPlusExtra Nat 2 1).as_slice[2]? =
      (⟨[1, 2], [3], rfl, rfl⟩ : ArrayPlusExtra Nat 2 1).extra[2 - 2]? :=
  ⟨(C1_as_slice_layout (⟨[1, 2], [3], rfl, rfl⟩ : ArrayPlusExtra Nat 2 1)).1,
   (C1_as_slice_layout (⟨[1, 2], [3], rfl, rfl⟩ : ArrayPlusExtra Nat 2 1)).2.1 0 (by decide),
   (C1_as_slice_layout (⟨[1, 2], [3], rfl, rfl⟩ : ArrayPlusExtra Nat 2 1)).2.2 2
     (by decide) (by decide)⟩

/-- C2: for every N, EXTRA and value v, new(v).as_slice() has length
N + EXTRA and every one of its elements equals v. -/
theorem C2_new_fill {T : Type} (N EXTRA : Nat) (v : T) :
    (ArrayPlusExtra.new v : ArrayPlusExtra T N EXTRA).as_slice.length = N + EXTRA ∧
    ∀ i, i < N + EXTRA →
      (ArrayPlusExtra.new v : ArrayPlusExtra T N EXTRA).as_slice[i]? = some v := by
  constructor
  · exact as_slice_length _
  · intro i hi
    simp [ArrayPlusExtra.new, ArrayPlusExtra.as_slice, ← List.replicate_add,
      List.getElem?_replicate, hi]

theorem C2_witness :
    (ArrayPlusExtra.new 7 : ArrayPlusExtra Nat 2 1).as_slice.length = 2 + 1 ∧
    (ArrayPlusExtra.new 7 : ArrayPlusExtra Nat 2 1).as_slice[2]? = some 7 :=
  ⟨(C2_new_fill 2 1 7).1, (C2_new_fill 2 1 7).2 2 (by decide)⟩

/-- C3: for every instance, index i < N + EXTRA and value x, writing x at
flat index i through the mutable slice makes a read at i return x, leaves
every other index j unchanged, and the updated flat view is also what
as_array returns. -/
theorem C3_set_frame {T : Type} {N EXTRA : Nat} (a : ArrayPlusExtra T N EXTRA) (i : Nat)
    (x : T) (h : i < N + EXTRA) :
    (a.set i x).as_slice[i]? = some x ∧
    (∀ j, j < N + EXTRA → j ≠ i → (a.set i x).as_slice[j]? = a.as_slice[j]?) ∧
    (a.set i x).as_array (N + EXTRA) = some (a.as_slice.set i x) := by
  refine ⟨?_, ?_, ?_⟩
  · rw [as_slice_set]
    simp [List.getElem?_set, as_slice_length, h]
  · intro j _ hne
    rw [as_slice_set]
    simp [List.getElem?_set]
    intro he
    exact absurd he.symm hne
  · simp [ArrayPlusExtra.as_array, as_slice_set]

theorem C3_witness :
    ((⟨[1, 2], [3], rfl, rfl⟩ : ArrayPlusExtra Nat 2 1).set 1 9).as_slice[1]? = some 9 ∧
    ((⟨[1, 2], [3], rfl, rfl⟩ : ArrayPlusExtra Nat 2 1).set 1 9).as_slice[2]? =
      (⟨[1, 2], [3], rfl, rfl⟩ : ArrayPlusExtra Nat 2 1).as_slice[2]? :=
  ⟨(C3_set_frame (⟨[1, 2], [3], rfl, rfl⟩ : ArrayPlusExtra Nat 2 1) 1 9 (by decide)).1,
   (C3_set_frame (⟨[1, 2], [3], rfl, rfl⟩ : ArrayPlusExtra Nat 2 1) 1 9 (by decide)).2.1 2
     (by decide) (by decide)⟩

/-- C4: into_array at size N + EXTRA yields the flat sequence, element for
element, and rewrapping that sequence (first N elements into data, the rest
into extra) reproduces an instance with the same flat view. -/
theorem C4_into_array_roundtrip {T : Type} {N EXTRA : Nat} (a : ArrayPlusExtra T N EXTRA) :
    ∃ l, a.into_array (N + EXTRA) = some l ∧
      l.length = N + EXTRA ∧
      (∀ i, i < N + EXTRA → l[i]? = a.as_slice[i]?) ∧
      ∀ hl : l.length = N + EXTRA, (rewrap l hl).as_slice = a.as_slice := by
  refine ⟨a.as_slice, ?_, as_slice_length a, fun i _ => rfl, fun hl => ?_⟩
  · simp [ArrayPlusExtra.into_array]
  · simp [rewrap, ArrayPlusExtra.as_slice, List.take_append_drop]

theorem C4_witness :
    ∃ l, (⟨[1, 2], [3], rfl, rfl⟩ : ArrayPlusExtra Nat 2 1).into_array (2 + 1) = some l ∧
      l.length = 2 + 1 ∧
      (∀ i, i < 2 + 1 →
        l[i]? = (⟨[1, 2], [3], rfl, rfl⟩ : ArrayPlusExtra Nat 2 1).as_slice[i]?) ∧
      ∀ hl : l.length = 2 + 1,
        (rewrap l hl).as_slice = (⟨[1, 2], [3], rfl, rfl⟩ : ArrayPlusExtra Nat 2 1).as_slice :=
  C4_into_array_roundtrip (⟨[1, 2], [3], rfl, rfl⟩ : ArrayPlusExtra Nat 2 1)

/-- C5: as_array and into_array at a size M different from N + EXTRA are
rejected by the size check (which the source performs at compile time, so no
runtime failure path exists); at M = N + EXTRA, as_array succeeds and yields
an array of M elements agreeing with the flat view at every index. -/
theorem C5_size_check {T : Type} {N EXTRA : Nat} (a : ArrayPlusExtra T N EXTRA) (M : Nat) :
    (M ≠ N + EXTRA → a.as_array M = none ∧ a.into_array M = none) ∧
    (M = N + EXTRA → ∃ l, a.as_array M = some l ∧ l.length = M ∧
      ∀ i, i < M → l[i]? = a.as_slice[i]?) := by
  constructor
  · intro hne
    simp [ArrayPlusExtra.as_array, ArrayPlusExtra.into_array, hne]
  · intro he
    subst he
    exact ⟨a.as_slice, by simp [ArrayPlusExtra.as_array], as_slice_length a, fun i _ => rfl⟩

theorem C5_witness :
    ((⟨[1, 2], [3], rfl, rfl⟩ : ArrayPlusExtra Nat 2 1).as_array 7 = none ∧
      (⟨[1, 2], [3], rfl, rfl⟩ : ArrayPlusExtra Nat 2 1).into_array 7 = none) ∧
    ∃ l, (⟨[1, 2], [3], rfl, rfl⟩ : ArrayPlusExtra Nat 2 1).as_array 3 = some l ∧
      l.length = 3 ∧
      ∀ i, i < 3 → l[i]? = (⟨[1, 2], [3], rfl, rfl⟩ : ArrayPlusExtra Nat 2 1).as_slice[i]? :=
  ⟨(C5_size_check (⟨[1, 2], [3], rfl, rfl⟩ : ArrayPlusExtra Nat 2 1) 7).1 (by decide),
   (C5_size_check (⟨[1, 2], [3], rfl, rfl⟩ : ArrayPlusExtra Nat 2 1) 3).2 (by decide)⟩

/-- C6: the forwarded equality holds iff the flat views agree at every index;
it is reflexive, symmetric and transitive, and any differing index makes the
two instances unequal. -/
theorem C6_eq_flat_views {T : Type} [DecidableEq T] {N EXTRA : Nat}
    (a b c : ArrayPlusExtra T N EXTRA) :
    (a.eq b = true ↔ ∀ i, i < N + EXTRA → a.as_slice[i]? = b.as_slice[i]?) ∧
    a.eq a = true ∧
    a.eq b = b.eq a ∧
    (a.eq b = true → b.eq c = true → a.eq c = true) ∧
    (∀ i, i < N + EXTRA → a.as_slice[i]? ≠ b.as_slice[i]? → a.eq b = false) := by
  have key : ∀ u v : ArrayPlusExtra T N EXTRA, u.eq v = true ↔ u.as_slice = v.as_slice :=
    fun u v => eq_iff_as_slice u v
  have elem : ∀ u v : ArrayPlusExtra T N EXTRA,
      (∀ i, i < N + EXTRA → u.as_slice[i]? = v.as_slice[i]?) → u.as_slice = v.as_slice := by
    intro u v hiv
    apply List.ext_getElem?
    intro i
    by_cases hi : i < N + EXTRA
    · exact hiv i hi
    · rw [getElem?_eq_none_of_ge (by rw [as_slice_length]; omega),
        getElem?_eq_none_of_ge (by rw [as_slice_length]; omega)]
  refine ⟨⟨fun ht i _ => by rw [(key a b).mp ht], fun hiv => (key a b).mpr (elem a b hiv)⟩,
    (key a a).mpr rfl, ?_, ?_, ?_⟩
  · by_cases h : a.as_slice = b.as_slice
    · rw [(key a b).mpr h, (key b a).mpr h.symm]
    · have h1 : a.eq b = false := by
        cases hb : a.eq b
        · rfl
        · exact absurd ((key a b).mp hb) h
      have h2 : b.eq a = false := by
        cases hb : b.eq a
        · rfl
        · exact absurd ((key b a).mp hb).symm h
      rw [h1, h2]
  · intro hab hbc
    exact (key a c).mpr (((key a b).mp hab).trans ((key b c).mp hbc))
  · intro i _ hne
    cases hb : a.eq b
    · rfl
    · exact absurd (by rw [(key a b).mp hb]) hne

theorem C6_witness :
    (⟨[1], [2], rfl, rfl⟩ : ArrayPlusExtra Nat 1 1).eq
      (⟨[1], [2], rfl, rfl⟩ : ArrayPlusExtra Nat 1 1) = true ∧
    (⟨[1], [2], rfl, rfl⟩ : ArrayPlusExtra Nat 1 1).eq
      (⟨[1], [3], rfl, rfl⟩ : ArrayPlusExtra Nat 1 1) = false :=
  ⟨(C6_eq_flat_views (⟨[1], [2], rfl, rfl⟩ : ArrayPlusExtra Nat 1 1)
      (⟨[1], [2], rfl, rfl⟩ : ArrayPlusExtra Nat 1 1)
      (⟨[1], [2], rfl, rfl⟩ : ArrayPlusExtra Nat 1 1)).2.1,
   (C6_eq_flat_views (⟨[1], [2], rfl, rfl⟩ : ArrayPlusExtra Nat 1 1)
      (⟨[1], [3], rfl, rfl⟩ : ArrayPlusExtra Nat 1 1)
      (⟨[1], [3], rfl, rfl⟩ : ArrayPlusExtra Nat 1 1)).2.2.2.2 1 (by decide) (by decide)⟩

/-- C7 counterexample: the derived Debug rendering of a concrete instance is
not the rendering of the plain array of its N + EXTRA elements — the struct
name and the data/extra field framing appear in the output, refuting the
claim that the debug rendering is indistinguishable from a plain array. -/
theorem C7_counterexample :
    debugRender Nat.repr (⟨[1], [2], rfl, rfl⟩ : ArrayPlusExtra Nat 1 1) ≠
      renderList Nat.repr ((⟨[1], [2], rfl, rfl⟩ : ArrayPlusExtra Nat 1 1).as_slice) := by
  decide

/-- C7 (amended): the defmt Format rendering is indistinguishable from the
rendering of the plain array of the same N + EXTRA elements (data then
extra); the derived std Debug rendering is not — it frames the output with
the struct name and the field names. -/
theorem C7_defmt_renders_flat {T : Type} {N EXTRA : Nat} (render : T → String)
    (a : ArrayPlusExtra T N EXTRA) :
    defmtRender render a = renderList render (a.data ++ a.extra) := rfl

theorem C7_witness :
    defmtRender Nat.repr (⟨[1], [2], rfl, rfl⟩ : ArrayPlusExtra Nat 1 1) =
      renderList Nat.repr ([1] ++ [2]) :=
  C7_defmt_renders_flat Nat.repr (⟨[1], [2], rfl, rfl⟩ : ArrayPlusExtra Nat 1 1)

/-- C8: serialization encodes the flat view — exactly the N + EXTRA elements,
data then extra, in order — and decoding an encoding succeeds and yields an
instance with the same flat view. -/
theorem C8_serde_roundtrip {T : Type} {N EXTRA : Nat} (a : ArrayPlusExtra T N EXTRA) :
    serialize a = a.data ++ a.extra ∧
    (serialize a).length = N + EXTRA ∧
    ∃ b : ArrayPlusExtra T N EXTRA, visit_seq (serialize a) = .ok b ∧
      b.as_slice = a.as_slice := by
  have hlen : N + EXTRA ≤ (serialize a).length := by
    show N + EXTRA ≤ a.as_slice.length
    rw [as_slice_length]
  refine ⟨rfl, as_slice_length a, _, visit_seq_ok_of_le (serialize a) hlen, ?_⟩
  show (serialize a).take N ++ ((serialize a).drop N).take EXTRA = a.as_slice
  have hd : ((serialize a).drop N).length ≤ EXTRA := by
    rw [List.length_drop]
    show (serialize a).length - N ≤ EXTRA
    have : (serialize a).length = N + EXTRA := as_slice_length a
    omega
  rw [List.take_of_length_le hd, List.take_append_drop]
  rfl

theorem C8_witness :
    serialize (⟨[1, 2], [3], rfl, rfl⟩ : ArrayPlusExtra Nat 2 1) = [1, 2] ++ [3] ∧
    (serialize (⟨[1, 2], [3], rfl, rfl⟩ : ArrayPlusExtra Nat 2 1)).length = 2 + 1 ∧
    ∃ b : ArrayPlusExtra Nat 2 1,
      visit_seq (serialize (⟨[1, 2], [3], rfl, rfl⟩ : ArrayPlusExtra Nat 2 1)) = .ok b ∧
      b.as_slice = (⟨[1, 2], [3], rfl, rfl⟩ : ArrayPlusExtra Nat 2 1).as_slice :=
  C8_serde_roundtrip (⟨[1, 2], [3], rfl, rfl⟩ : ArrayPlusExtra Nat 2 1)

/-- C9 counterexample: on an input sequence with more elements than
N + EXTRA the visitor succeeds rather than failing — it consumes exactly
N + EXTRA elements and returns the instance built from them — refuting the
claim that a longer sequence fails inside this code. -/
theorem C9_counterexample :
    (visit_seq [1, 2, 3, 4, 5] : Except DeError (ArrayPlusExtra Nat 2 2)).isOk = true ∧
    ((visit_seq [1, 2, 3, 4, 5] : Except DeError (ArrayPlusExtra Nat 2 2)).toOption.map
      ArrayPlusExtra.as_slice) = some [1, 2, 3, 4] := by
  constructor
  · rfl
  · rfl

/-- C9 (amended): deserializing from a sequence with fewer elements than
N + EXTRA fails with an invalid-length error identifying the position at
which the sequence was exhausted (the input length) and the expected total,
and no structure is returned; a sequence with more elements is not rejected
by this code — any such rejection comes from the surrounding format. -/
theorem C9_short_input_error {T : Type} {N EXTRA : Nat} (input : List T)
    (h : input.length < N + EXTRA) :
    visit_seq input =
      (.error (.invalidLength input.length (expectingMsg N EXTRA)) :
        Except DeError (ArrayPlusExtra T N EXTRA)) :=
  visit_seq_short_eq input h

theorem C9_witness :
    visit_seq [1, 2] =
      (.error (.invalidLength 2 (expectingMsg 2 2)) :
        Except DeError (ArrayPlusExtra Nat 2 2)) :=
  C9_short_input_error [1, 2] (by decide)

/-- C10: the visitor requests exactly N + EXTRA elements and performs no
exhaustion check afterwards: on any input yielding at least N + EXTRA
elements it succeeds, the data slots receiving elements 0..N and the extra
slots elements N..N+EXTRA in order, the flat view agreeing with the input
prefix; trailing elements are left unconsumed for the surrounding format. -/
theorem C10_visitor_exact {T : Type} {N EXTRA : Nat} (input : List T)
    (h : N + EXTRA ≤ input.length) :
    ∃ b : ArrayPlusExtra T N EXTRA, visit_seq input = .ok b ∧
      b.data = input.take N ∧
      b.extra = (input.drop N).take EXTRA ∧
      ∀ i, i < N + EXTRA → b.as_slice[i]? = input[i]? := by
  refine ⟨_, visit_seq_ok_of_le input h, rfl, rfl, ?_⟩
  intro i hi
  show (input.take N ++ (input.drop N).take EXTRA)[i]? = input[i]?
  rw [← List.take_add]
  simp [List.getElem?_take, hi]

theorem C10_witness :
    ∃ b : ArrayPlusExtra Nat 2 2, visit_seq [1, 2, 3, 4, 5] = .ok b ∧
      b.data = [1, 2, 3, 4, 5].take 2 ∧
      b.extra = ([1, 2, 3, 4, 5].drop 2).take 2 ∧
      ∀ i, i < 2 + 2 → b.as_slice[i]? = [1, 2, 3, 4, 5][i]? :=
  C10_visitor_exact [1, 2, 3, 4, 5] (by decide)
